import Mathlib

/-
Verification of scamper's address module (scamper_addr.c): the polymorphic
address value type, its per-kind comparators and prefix arithmetic, and the
reference-counted interning cache.

Modelling conventions:
* Raw address buffers are `List Nat`, one entry per byte (well-formed buffers
  have every entry < 256 and length equal to the kind's width).
* The C code loads the network-byte-order buffers as 32-bit integers
  (`struct in_addr.s_addr`, `struct in6_addr.s6_addr32`).  We model these
  loads on a big-endian host, where network byte order coincides with host
  byte order and `htonl`/`ntohl` are the identity; the value of a 4-byte
  load is therefore the big-endian composition of the bytes (`be32`).
* C `int` results stay `Int` so that the -1 error sentinels are kept as is;
  bit lengths and counters are `Nat` (the claims only quantify over
  non-negative lengths).
* The splaytree container and the heap are external collaborators of this
  file; the stateful cache model appears further below.
-/

/-- Address kinds, mirroring the four entries of the `handlers` table in
scamper_addr.c (IPv4, IPv6, Ethernet MAC-48, FireWire EUI-64). -/
inductive AddrType where
  | ipv4
  | ipv6
  | ethernet
  | firewire
deriving DecidableEq

/-- Modelled from the spec: the stable kind discriminants
`SCAMPER_ADDR_TYPE_*` are declared in scamper_addr.h (not part of the
sources given here); the spec fixes them as the contiguous values 1..4 for
IPv4, IPv6, Ethernet, FireWire, in that order. -/
def AddrType.num : AddrType → Nat
  | .ipv4 => 1
  | .ipv6 => 2
  | .ethernet => 3
  | .firewire => 4

/-- Fixed byte width of each kind: the `size` column of the `handlers`
table (4, 16, 6, 8). -/
def AddrType.size : AddrType → Nat
  | .ipv4 => 4
  | .ipv6 => 16
  | .ethernet => 6
  | .firewire => 8

/-- The address value `scamper_addr_t`: a kind tag plus the owned raw
bytes.  The bookkeeping fields (`refcnt`, `internal`) only matter for the
cache model below; the pure algorithms never read them, so this pure view
carries just the fields they use. -/
structure scamper_addr_t where
  type : AddrType
  addr : List Nat
deriving DecidableEq

/-- The `uint32_netmask` table from scamper_addr.c: entry j has the top
j+1 bits set. -/
def uint32_netmask : List Nat := [
  0x80000000, 0xc0000000, 0xe0000000, 0xf0000000,
  0xf8000000, 0xfc000000, 0xfe000000, 0xff000000,
  0xff800000, 0xffc00000, 0xffe00000, 0xfff00000,
  0xfff80000, 0xfffc0000, 0xfffe0000, 0xffff0000,
  0xffff8000, 0xffffc000, 0xffffe000, 0xfffff000,
  0xfffff800, 0xfffffc00, 0xfffffe00, 0xffffff00,
  0xffffff80, 0xffffffc0, 0xffffffe0, 0xfffffff0,
  0xfffffff8, 0xfffffffc, 0xfffffffe, 0xffffffff]

/-- The `uint32_hostmask` table from scamper_addr.c: entry j has the low
32-j bits set. -/
def uint32_hostmask : List Nat := [
  0xffffffff, 0x7fffffff, 0x3fffffff, 0x1fffffff,
  0x0fffffff, 0x07ffffff, 0x03ffffff, 0x01ffffff,
  0x00ffffff, 0x007fffff, 0x003fffff, 0x001fffff,
  0x000fffff, 0x0007ffff, 0x0003ffff, 0x0001ffff,
  0x0000ffff, 0x00007fff, 0x00003fff, 0x00001fff,
  0x00000fff, 0x000007ff, 0x000003ff, 0x000001ff,
  0x000000ff, 0x0000007f, 0x0000003f, 0x0000001f,
  0x0000000f, 0x00000007, 0x00000003, 0x00000001]

/-- Big-endian 32-bit load of word i of a byte buffer: the value of
`s_addr` / `s6_addr32[i]` on the (big-endian) modelled host.  Reads past
the end of the buffer yield 0. -/
def be32 (a : List Nat) (i : Nat) : Nat :=
  a.getD (4 * i) 0 * 16777216 + a.getD (4 * i + 1) 0 * 65536 +
    a.getD (4 * i + 2) 0 * 256 + a.getD (4 * i + 3) 0

/-- The four 32-bit words of a 16-byte IPv6 buffer (`s6_addr32[0..3]`). -/
def words16 (a : List Nat) : List Nat := [be32 a 0, be32 a 1, be32 a 2, be32 a 3]

/-- Three-way comparison of two machine words, as written in `ipv4_cmp`:
`if(a < b) return -1; if(a > b) return 1; return 0`. -/
def wordCmp (x y : Nat) : Int :=
  if x < y then -1 else if x > y then 1 else 0

/-- Element-by-element three-way comparison of two lists, stopping at the
first difference.  This is the comparison loop shape shared by `ipv6_cmp`
(over 32-bit words) and by `memcmp` (over bytes); it returns 0 if either
list runs out. -/
def cmpList : List Nat → List Nat → Int
  | x :: xs, y :: ys =>
    if x < y then -1 else if x > y then 1 else cmpList xs ys
  | _, _ => 0

/-- Sign of `memcmp(x, y, n)` on byte buffers (the C standard only
specifies the sign of memcmp's result). -/
def memcmp (n : Nat) (x y : List Nat) : Int :=
  cmpList (x.take n) (y.take n)

/-- The `ipv4_cmp` handler: compares the two `s_addr` loads.  The C
function receives the enclosing `scamper_addr_t`s; the comparison reads
only the raw bytes, so we model it on the byte buffers. -/
def ipv4_cmp (x y : List Nat) : Int :=
  wordCmp (be32 x 0) (be32 y 0)

/-- The `ipv6_cmp` handler: the `for(i=0;i<4;i++)` loop over
`s6_addr32[i]`, returning at the first unequal word. -/
def ipv6_cmp (x y : List Nat) : Int :=
  cmpList (words16 x) (words16 y)

/-- The `ethernet_cmp` handler: `memcmp(sa->addr, sb->addr, 6)`. -/
def ethernet_cmp (x y : List Nat) : Int :=
  memcmp 6 x y

/-- The `firewire_cmp` handler: `memcmp(sa->addr, sb->addr, 8)`. -/
def firewire_cmp (x y : List Nat) : Int :=
  memcmp 8 x y

/-- Dispatch through the `cmp` column of the `handlers` table. -/
def handlers_cmp (t : AddrType) : List Nat → List Nat → Int :=
  match t with
  | .ipv4 => ipv4_cmp
  | .ipv6 => ipv6_cmp
  | .ethernet => ethernet_cmp
  | .firewire => firewire_cmp

/-- `scamper_addr_cmp`: identity fast-path, then same-kind dispatch to the
handler, then cross-kind ordering by the kind discriminants.  The C
identity test `a == b` compares pointers; pointer-equal addresses are
value-equal, which is what the structural test models. -/
def scamper_addr_cmp (a b : scamper_addr_t) : Int :=
  if a = b then 0
  else if a.type = b.type then handlers_cmp a.type a.addr b.addr
  else if a.type.num < b.type.num then -1 else 1

/-- Lemmas about the generic comparison loop. -/
theorem cmpList_self (x : List Nat) : cmpList x x = 0 := by
  induction x with
  | nil => rfl
  | cons a xs ih => simp [cmpList, ih]

theorem cmpList_antisymm (x y : List Nat) : cmpList x y = -cmpList y x := by
  induction x generalizing y with
  | nil => cases y <;> rfl
  | cons a xs ih =>
    cases y with
    | nil => rfl
    | cons b ys =>
      simp only [cmpList, gt_iff_lt]
      rcases Nat.lt_trichotomy a b with h | h | h
      · simp [h, Nat.lt_asymm h]
      · subst h
        simp [Nat.lt_irrefl, ih ys]
      · simp [h, Nat.lt_asymm h]

theorem cmpList_trans_neg :
    ∀ (x y z : List Nat), cmpList x y < 0 → cmpList y z < 0 → cmpList x z < 0 := by
  intro x
  induction x with
  | nil => intro y z hxy _; simp [cmpList] at hxy
  | cons a xs ih =>
    intro y z hxy hyz
    cases y with
    | nil => simp [cmpList] at hxy
    | cons b ys =>
      cases z with
      | nil => simp [cmpList] at hyz
      | cons c zs =>
        simp only [cmpList, gt_iff_lt] at hxy hyz ⊢
        rcases Nat.lt_trichotomy a b with hab | hab | hab
        · rcases Nat.lt_trichotomy b c with hbc | hbc | hbc
          · simp [Nat.lt_trans hab hbc]
          · subst hbc; simp [hab]
          · simp [Nat.lt_asymm hbc, hbc] at hyz
        · subst hab
          simp only [Nat.lt_irrefl, if_false] at hxy
          rcases Nat.lt_trichotomy a c with hac | hac | hac
          · simp [hac]
          · subst hac
            simp only [Nat.lt_irrefl, if_false] at hyz ⊢
            exact ih ys zs hxy hyz
          · simp [Nat.lt_asymm hac, hac] at hyz
        · simp [Nat.lt_asymm hab, hab] at hxy

theorem cmpList_vals (x y : List Nat) :
    cmpList x y = -1 ∨ cmpList x y = 0 ∨ cmpList x y = 1 := by
  induction x generalizing y with
  | nil => cases y <;> simp [cmpList]
  | cons a xs ih =>
    cases y with
    | nil => simp [cmpList]
    | cons b ys =>
      simp only [cmpList]
      split_ifs <;> simp [ih ys]

theorem wordCmp_self (x : Nat) : wordCmp x x = 0 := by
  simp [wordCmp]

theorem wordCmp_antisymm (x y : Nat) : wordCmp x y = -wordCmp y x := by
  unfold wordCmp
  split_ifs <;> omega

theorem handlers_cmp_self (t : AddrType) (x : List Nat) :
    handlers_cmp t x x = 0 := by
  cases t <;>
    simp [handlers_cmp, ipv4_cmp, ipv6_cmp, ethernet_cmp, firewire_cmp,
      memcmp, wordCmp_self, cmpList_self]

theorem handlers_cmp_antisymm (t : AddrType) (x y : List Nat) :
    handlers_cmp t x y = -handlers_cmp t y x := by
  cases t <;>
    simp only [handlers_cmp, ipv4_cmp, ipv6_cmp, ethernet_cmp, firewire_cmp, memcmp] <;>
    first
      | exact wordCmp_antisymm _ _
      | exact cmpList_antisymm _ _

theorem handlers_cmp_trans_neg (t : AddrType) {x y z : List Nat}
    (hxy : handlers_cmp t x y < 0) (hyz : handlers_cmp t y z < 0) :
    handlers_cmp t x z < 0 := by
  cases t <;>
    simp only [handlers_cmp, ipv4_cmp, ipv6_cmp, ethernet_cmp, firewire_cmp,
      memcmp, wordCmp] at hxy hyz ⊢
  · split_ifs at hxy hyz ⊢ <;> omega
  all_goals exact cmpList_trans_neg _ _ _ hxy hyz

/-- The `ipv4_inprefix` handler: wildcard at length 0, error above 32,
otherwise a masked xor test of the leading `len` bits.  `htonl` is the
identity on the modelled host, so the mask applies directly to the
big-endian word.  The C `len` parameter is an `int`; the claims only
quantify over non-negative lengths, so it is modelled as `Nat`. -/
def ipv4_inprefix (sa : scamper_addr_t) (p : List Nat) (len : Nat) : Int :=
  if len = 0 then 1
  else if len > 32 then -1
  else if (be32 sa.addr 0 ^^^ be32 p 0) &&& uint32_netmask.getD (len - 1) 0 = 0 then 1
  else 0

/-- The `for(i=0;i<4;i++)` word-scanning loop of `ipv6_inprefix`, with the
running `len`; the final `-1` is the trailing
"we should never get to this return statement" error return, reached only
when the loop exhausts all four words. -/
def ipv6_inprefix_go : List Nat → List Nat → Nat → Int
  | a :: as, p :: ps, len =>
    if (a ^^^ p) &&&
        (if len > 32 then uint32_netmask.getD 31 0 else uint32_netmask.getD (len - 1) 0) ≠ 0
      then 0
    else if len ≤ 32 then 1
    else ipv6_inprefix_go as ps (len - 32)
  | _, _, _ => -1

/-- The `ipv6_inprefix` handler: wildcard at length 0, error above 128,
otherwise the word-scanning loop over `s6_addr32[0..3]`. -/
def ipv6_inprefix (sa : scamper_addr_t) (p : List Nat) (len : Nat) : Int :=
  if len = 0 then 1
  else if len > 128 then -1
  else ipv6_inprefix_go (words16 sa.addr) (words16 p) len

/-- `scamper_addr_inprefix`: dispatch through the `inprefix` column of the
handler table; the Ethernet and FireWire rows hold NULL, giving -1. -/
def scamper_addr_inprefix (addr : scamper_addr_t) (p : List Nat) (len : Nat) : Int :=
  match addr.type with
  | .ipv4 => ipv4_inprefix addr p len
  | .ipv6 => ipv6_inprefix addr p len
  | _ => -1

/-- The `for(i=32;i>0;i--)` loop shared by `ipv4_prefix` and the first
half of `ipv4_prefixhosts`: given `u = a ^ b`, return the largest `i` such
that the top `i` bits of `u` are clear, or 0. -/
def ipv4_prefix_loop (u : Nat) : Nat → Nat
  | 0 => 0
  | i + 1 =>
    if u &&& uint32_netmask.getD i 0 = 0 then i + 1 else ipv4_prefix_loop u i

/-- The `ipv4_prefix` handler: number of leading bits common to the two
IPv4 addresses. -/
def ipv4_prefix (sa sb : scamper_addr_t) : Nat :=
  ipv4_prefix_loop (be32 sa.addr 0 ^^^ be32 sb.addr 0) 32

/-- The `for(j=0;j<32;j++)` inner loop of `ipv6_prefix` on one unequal
word pair: `u` is the xor of the words, `x` the running bit count; the
countdown argument is the number of remaining iterations (32 - j), so the
mask index `j` is `32` minus it.  `none` models falling out of the loop
(impossible when `u ≠ 0`, since index 31 masks all 32 bits). -/
def ipv6_prefix_go (u : Nat) : Nat → Nat → Option Nat
  | _, 0 => none
  | x, k + 1 =>
    if u &&& uint32_netmask.getD (32 - (k + 1)) 0 ≠ 0 then some x
    else ipv6_prefix_go u (x + 1) k

/-- The `for(i=0;i<4;i++)` outer loop of `ipv6_prefix` over the four word
pairs: equal words add 32 to the count, the first unequal pair runs the
inner bit loop. -/
def ipv6_prefix_words : List Nat → List Nat → Nat → Nat
  | ua :: uas, ub :: ubs, x =>
    if ua = ub then ipv6_prefix_words uas ubs (x + 32)
    else
      match ipv6_prefix_go (ua ^^^ ub) x 32 with
      | some r => r
      | none => ipv6_prefix_words uas ubs (x + 32)
  | _, _, x => x

/-- The `ipv6_prefix` handler: number of leading bits common to the two
IPv6 addresses. -/
def ipv6_prefix (sa sb : scamper_addr_t) : Nat :=
  ipv6_prefix_words (words16 sa.addr) (words16 sb.addr) 0

/-- `scamper_addr_prefix`: -1 unless both kinds are equal and the kind has
a `prefix` handler (only IPv4 and IPv6 do). -/
def scamper_addr_prefix (a b : scamper_addr_t) : Int :=
  if a.type = b.type then
    match a.type with
    | .ipv4 => ( ipv4_prefix a b : Nat)
    | .ipv6 => ( ipv6_prefix a b : Nat)
    | _ => -1
  else -1

/-- The `while(i>0)` loop of `ipv4_prefixhosts`: `av`/`bv` are the two
host-order (`ntohl`) address values; a candidate length is skipped while
either address's host portion under `uint32_hostmask[i]` is all-zero or
all-one. -/
def ipv4_prefixhosts_loop (av bv : Nat) : Nat → Nat
  | 0 => 0
  | i + 1 =>
    if av &&& uint32_hostmask.getD (i + 1) 0 = 0 ∨
        av &&& uint32_hostmask.getD (i + 1) 0 = uint32_hostmask.getD (i + 1) 0 then
      ipv4_prefixhosts_loop av bv i
    else if bv &&& uint32_hostmask.getD (i + 1) 0 = 0 ∨
        bv &&& uint32_hostmask.getD (i + 1) 0 = uint32_hostmask.getD (i + 1) 0 then
      ipv4_prefixhosts_loop av bv i
    else i + 1

/-- The `ipv4_prefixhosts` handler: the common-prefix loop, returned
unchanged when ≥ 31, otherwise shrunk by the host-degeneracy loop.  On the
modelled big-endian host `ntohl` is the identity, so `av`/`bv` are the
`be32` values. -/
def ipv4_prefixhosts (sa sb : scamper_addr_t) : Nat :=
  let i := ipv4_prefix_loop (be32 sa.addr 0 ^^^ be32 sb.addr 0) 32
  if 31 ≤ i then i
  else ipv4_prefixhosts_loop (be32 sa.addr 0) (be32 sb.addr 0) i

/-- `scamper_addr_prefixhosts`: -1 unless both kinds are equal and the
kind has a `prefixhosts` handler (only IPv4 does). -/
def scamper_addr_prefixhosts (a b : scamper_addr_t) : Int :=
  if a.type = b.type then
    match a.type with
    | .ipv4 => ( ipv4_prefixhosts a b : Nat)
    | _ => -1
  else -1

/-- The `ipv4_netaddr` handler: error outside (0, 32], otherwise the
address masked down to its network portion.  The C function writes the
4-byte `struct in_addr` through the out pointer and returns 0 or -1; we model
the pair as `Option`, with the written word as the payload. -/
def ipv4_netaddr (sa : scamper_addr_t) (netlen : Nat) : Option (List Nat) :=
  if netlen = 0 ∨ netlen > 32 then none
  else some [be32 sa.addr 0 &&& uint32_netmask.getD (netlen - 1) 0]

/-- The `for(i=0;i<4;i++)` loop of `ipv6_netaddr`: word i is copied whole
while `nl ≥ 32` and masked otherwise; the loop breaks once `nl ≤ 32`,
leaving the remaining words at their `memset` value 0. -/
def ipv6_netaddr_go : List Nat → Nat → List Nat
  | [], _ => []
  | w :: rest, nl =>
    (if 32 ≤ nl then w else w &&& uint32_netmask.getD (nl - 1) 0) ::
      (if nl ≤ 32 then rest.map (fun _ => 0) else ipv6_netaddr_go rest (nl - 32))

/-- The `ipv6_netaddr` handler: error outside (0, 128], otherwise the four
words of the masked address. -/
def ipv6_netaddr (sa : scamper_addr_t) (nl : Nat) : Option (List Nat) :=
  if nl = 0 ∨ nl > 128 then none
  else some (ipv6_netaddr_go (words16 sa.addr) nl)

/-- `scamper_addr_netaddr`: dispatch through the `netaddr` column of the
handler table; the Ethernet and FireWire rows hold NULL, giving the -1
error (modelled as `none`). -/
def scamper_addr_netaddr (a : scamper_addr_t) (netlen : Nat) : Option (List Nat) :=
  match a.type with
  | .ipv4 => ipv4_netaddr a netlen
  | .ipv6 => ipv6_netaddr a netlen
  | _ => none

/-- The full `scamper_addr_t` record for the cache model: kind, raw bytes,
reference count, and the non-owning back-reference `sa->internal`.  The
model has a single cache, so the back-reference is a Bool (`true` models
`sa->internal == ac`, `false` models NULL). -/
structure AddrObj where
  type : AddrType
  addr : List Nat
  refcnt : Nat
  internal : Bool
deriving DecidableEq

/-- State of the heap and of one `scamper_addrcache_t`.  `heap` maps an
allocation identity (the model of a `scamper_addr_t *`) to the live object
at that address, `trees` is the per-kind splaytree content as a list of
identities, and `next` is the next fresh identity. -/
structure CState where
  heap : Nat → Option AddrObj
  trees : AddrType → List Nat
  next : Nat

/-- Modelled from the spec: the splaytree collaborator (mjl_splaytree.c is
not part of the sources given here) is a generic ordered container keyed
by the caller-supplied three-way comparator, here `handlers[type-1].cmp`;
`splaytree_find` returns a stored element comparing equal to the probe, or
NULL.  The list model searches the stored identities for an object whose
bytes compare equal to the probe bytes. -/
def treeFind (σ : CState) (k : AddrType) (b : List Nat) : Option Nat :=
  (σ.trees k).find? (fun id =>
    match σ.heap id with
    | some o => decide (handlers_cmp k o.addr b = 0)
    | none => false)

/-- `scamper_addrcache_get`: look the bytes up in the kind's tree; on a
hit bump the shared instance's refcount and return it; on a miss allocate
a fresh instance (`scamper_addr_alloc`: refcnt 1), insert it into the
tree, and set its back-reference to the cache.  Allocation failure is out
of scope: `malloc` is modelled as always succeeding. -/
def scamper_addrcache_get (σ : CState) (k : AddrType) (b : List Nat) :
    CState × Nat :=
  match treeFind σ k b with
  | some id =>
    ({ σ with
        heap := fun x =>
          if x = id then (σ.heap id).map (fun o => { o with refcnt := o.refcnt + 1 })
          else σ.heap x }, id)
  | none =>
    ({ heap := fun x => if x = σ.next then some ⟨k, b, 1, true⟩ else σ.heap x,
       trees := fun t => if t = k then σ.next :: σ.trees t else σ.trees t,
       next := σ.next + 1 }, σ.next)

/-- `scamper_addr_use`: NULL in, NULL out; otherwise bump the refcount and
return the same instance.  (The C code dereferences unconditionally after
the NULL test; a dangling identity is undefined behaviour there and a
no-op here, unreachable from valid states.) -/
def scamper_addr_use (σ : CState) (sa : Option Nat) : CState × Option Nat :=
  match sa with
  | none => (σ, none)
  | some id =>
    ({ σ with
        heap := fun x =>
          if x = id then (σ.heap id).map (fun o => { o with refcnt := o.refcnt + 1 })
          else σ.heap x }, some id)

/-- `scamper_addr_free`: NULL is tolerated and ignored; otherwise the
refcount is decremented, and on reaching zero the instance is removed from
its cache's tree (only if its back-reference is set) and deallocated. -/
def scamper_addr_free (σ : CState) (sa : Option Nat) : CState :=
  match sa with
  | none => σ
  | some id =>
    match σ.heap id with
    | none => σ
    | some o =>
      if 0 < o.refcnt - 1 then
        { σ with
            heap := fun x =>
              if x = id then some { o with refcnt := o.refcnt - 1 } else σ.heap x }
      else
        { σ with
            heap := fun x => if x = id then none else σ.heap x,
            trees :=
              if o.internal then
                fun t => if t = o.type then (σ.trees o.type).erase id else σ.trees t
              else σ.trees }

/-- Whether an identity is resident in any of the cache's four trees. -/
def residentIn (σ : CState) (id : Nat) : Bool :=
  (σ.trees .ipv4).contains id || (σ.trees .ipv6).contains id ||
    (σ.trees .ethernet).contains id || (σ.trees .firewire).contains id

/-- `scamper_addrcache_free`: `splaytree_free(tree, free_cb)` on each of
the four trees — `free_cb` clears the back-reference of every node still
resident (detaching it without deallocating it) — then the trees and the
cache itself are gone. -/
def scamper_addrcache_free (σ : CState) : CState :=
  { heap := fun id =>
      match σ.heap id with
      | some o => some (if residentIn σ id then { o with internal := false } else o)
      | none => none,
    trees := fun _ => [],
    next := σ.next }

/-- Convenient view of the refcount of an identity (0 if not live). -/
def refcntOf (σ : CState) (id : Nat) : Nat :=
  match σ.heap id with
  | some o => o.refcnt
  | none => 0

/-- Well-formedness: live identities are below the allocation counter. -/
def HeapFresh (σ : CState) : Prop :=
  ∀ id, σ.heap id ≠ none → id < σ.next

/-- Well-formedness: tree members are live. -/
def TreeLive (σ : CState) : Prop :=
  ∀ k id, id ∈ σ.trees k → σ.heap id ≠ none

/-- The interning invariant: within one cache, a kind's tree holds at most
one instance per distinct byte sequence. -/
def TreeUnique (σ : CState) : Prop :=
  ∀ k i j oi oj, i ∈ σ.trees k → j ∈ σ.trees k →
    σ.heap i = some oi → σ.heap j = some oj → oi.addr = oj.addr → i = j

/-- Bundled cache well-formedness. -/
def CacheWF (σ : CState) : Prop :=
  HeapFresh σ ∧ TreeLive σ ∧ TreeUnique σ

/-- The empty initial state (`scamper_addrcache_alloc`: four empty
trees). -/
def emptyCache : CState :=
  { heap := fun _ => none, trees := fun _ => [], next := 0 }

/-- Splitting the comparison loop at an equal-length boundary. -/
theorem cmpList_append (x y xs ys : List Nat) (h : x.length = y.length) :
    cmpList (x ++ xs) (y ++ ys) =
      if cmpList x y = 0 then cmpList xs ys else cmpList x y := by
  induction x generalizing y with
  | nil =>
    cases y with
    | nil => simp [cmpList]
    | cons b ys' => simp at h
  | cons a x' ih =>
    cases y with
    | nil => simp at h
    | cons b y' =>
      simp only [List.cons_append, cmpList, gt_iff_lt]
      rcases Nat.lt_trichotomy a b with hab | hab | hab
      · simp [hab]
      · subst hab
        simp only [Nat.lt_irrefl, if_false]
        exact ih y' (by simpa using h)
      · simp [hab, Nat.lt_asymm hab]

/-- One step of comparing word-by-word versus byte-chunk by byte-chunk. -/
theorem cmpList_word_step (w v : Nat) (ws vs c d r s : List Nat)
    (hc : cmpList c d = wordCmp w v) (hl : c.length = d.length)
    (hrec : cmpList ws vs = cmpList r s) :
    cmpList (w :: ws) (v :: vs) = cmpList (c ++ r) (d ++ s) := by
  rw [cmpList_append c d r s hl, hc]
  simp only [cmpList, wordCmp, gt_iff_lt]
  rcases Nat.lt_trichotomy w v with h | h | h
  · simp [h, Nat.lt_asymm h]
  · subst h
    simp [Nat.lt_irrefl, hrec]
  · simp [h, Nat.lt_asymm h]

/-- Byte-for-byte comparison of two 4-byte chunks agrees with the word
comparison of their big-endian 32-bit values. -/
theorem cmpList_four (a0 a1 a2 a3 b0 b1 b2 b3 : Nat)
    (_ha0 : a0 < 256) (ha1 : a1 < 256) (ha2 : a2 < 256) (ha3 : a3 < 256)
    (_hb0 : b0 < 256) (hb1 : b1 < 256) (hb2 : b2 < 256) (hb3 : b3 < 256) :
    cmpList [a0, a1, a2, a3] [b0, b1, b2, b3] =
      wordCmp (a0 * 16777216 + a1 * 65536 + a2 * 256 + a3)
        (b0 * 16777216 + b1 * 65536 + b2 * 256 + b3) := by
  simp only [cmpList, wordCmp, gt_iff_lt]
  split_ifs <;> omega

/-- Peeling one element off a list of known positive length. -/
theorem list_destruct_succ {α : Type} (l : List α) (n : Nat) (h : l.length = n + 1) :
    ∃ x t, l = x :: t ∧ t.length = n := by
  cases l with
  | nil => simp at h
  | cons x t => exact ⟨x, t, rfl, by simpa using h⟩

/-- Unfolding a list of length exactly 4. -/
theorem list_destruct_four (l : List Nat) (h : l.length = 4) :
    ∃ a0 a1 a2 a3, l = [a0, a1, a2, a3] := by
  obtain ⟨a0, l, rfl, h0⟩ := list_destruct_succ _ _ h
  obtain ⟨a1, l, rfl, h1⟩ := list_destruct_succ _ _ h0
  obtain ⟨a2, l, rfl, h2⟩ := list_destruct_succ _ _ h1
  obtain ⟨a3, l, rfl, h3⟩ := list_destruct_succ _ _ h2
  obtain rfl := List.length_eq_zero.mp h3
  exact ⟨a0, a1, a2, a3, rfl⟩

/-- Unfolding a list of length exactly 16. -/
theorem list_destruct_sixteen (l : List Nat) (h : l.length = 16) :
    ∃ a0 a1 a2 a3 a4 a5 a6 a7 a8 a9 a10 a11 a12 a13 a14 a15,
      l = [a0, a1, a2, a3, a4, a5, a6, a7, a8, a9, a10, a11, a12, a13, a14, a15] := by
  obtain ⟨a0, l, rfl, h0⟩ := list_destruct_succ _ _ h
  obtain ⟨a1, l, rfl, h1⟩ := list_destruct_succ _ _ h0
  obtain ⟨a2, l, rfl, h2⟩ := list_destruct_succ _ _ h1
  obtain ⟨a3, l, rfl, h3⟩ := list_destruct_succ _ _ h2
  obtain ⟨a4, l, rfl, h4⟩ := list_destruct_succ _ _ h3
  obtain ⟨a5, l, rfl, h5⟩ := list_destruct_succ _ _ h4
  obtain ⟨a6, l, rfl, h6⟩ := list_destruct_succ _ _ h5
  obtain ⟨a7, l, rfl, h7⟩ := list_destruct_succ _ _ h6
  obtain ⟨a8, l, rfl, h8⟩ := list_destruct_succ _ _ h7
  obtain ⟨a9, l, rfl, h9⟩ := list_destruct_succ _ _ h8
  obtain ⟨a10, l, rfl, h10⟩ := list_destruct_succ _ _ h9
  obtain ⟨a11, l, rfl, h11⟩ := list_destruct_succ _ _ h10
  obtain ⟨a12, l, rfl, h12⟩ := list_destruct_succ _ _ h11
  obtain ⟨a13, l, rfl, h13⟩ := list_destruct_succ _ _ h12
  obtain ⟨a14, l, rfl, h14⟩ := list_destruct_succ _ _ h13
  obtain ⟨a15, l, rfl, h15⟩ := list_destruct_succ _ _ h14
  obtain rfl := List.length_eq_zero.mp h15
  exact ⟨a0, a1, a2, a3, a4, a5, a6, a7, a8, a9, a10, a11, a12, a13, a14, a15, rfl⟩

/-- The `ipv4_cmp` handler agrees with the sign of memcmp on well-formed
4-byte buffers. -/
theorem ipv4_cmp_eq_memcmp (x y : List Nat) (hx : x.length = 4) (hy : y.length = 4)
    (bx : ∀ v ∈ x, v < 256) (bty : ∀ v ∈ y, v < 256) :
    ipv4_cmp x y = memcmp 4 x y := by
  obtain ⟨a0, a1, a2, a3, rfl⟩ := list_destruct_four x hx
  obtain ⟨b0, b1, b2, b3, rfl⟩ := list_destruct_four y hy
  exact (cmpList_four a0 a1 a2 a3 b0 b1 b2 b3
    (bx _ (by simp)) (bx _ (by simp)) (bx _ (by simp)) (bx _ (by simp))
    (bty _ (by simp)) (bty _ (by simp)) (bty _ (by simp)) (bty _ (by simp))).symm

/-- The `ipv6_cmp` word loop agrees with the sign of memcmp on well-formed
16-byte buffers. -/
theorem ipv6_cmp_eq_memcmp (x y : List Nat) (hx : x.length = 16) (hy : y.length = 16)
    (bx : ∀ v ∈ x, v < 256) (bty : ∀ v ∈ y, v < 256) :
    ipv6_cmp x y = memcmp 16 x y := by
  obtain ⟨a0, a1, a2, a3, a4, a5, a6, a7, a8, a9, a10, a11, a12, a13, a14, a15, rfl⟩ :=
    list_destruct_sixteen x hx
  obtain ⟨b0, b1, b2, b3, b4, b5, b6, b7, b8, b9, b10, b11, b12, b13, b14, b15, rfl⟩ :=
    list_destruct_sixteen y hy
  have w0 := cmpList_four a0 a1 a2 a3 b0 b1 b2 b3
    (bx _ (by simp)) (bx _ (by simp)) (bx _ (by simp)) (bx _ (by simp))
    (bty _ (by simp)) (bty _ (by simp)) (bty _ (by simp)) (bty _ (by simp))
  have w1 := cmpList_four a4 a5 a6 a7 b4 b5 b6 b7
    (bx _ (by simp)) (bx _ (by simp)) (bx _ (by simp)) (bx _ (by simp))
    (bty _ (by simp)) (bty _ (by simp)) (bty _ (by simp)) (bty _ (by simp))
  have w2 := cmpList_four a8 a9 a10 a11 b8 b9 b10 b11
    (bx _ (by simp)) (bx _ (by simp)) (bx _ (by simp)) (bx _ (by simp))
    (bty _ (by simp)) (bty _ (by simp)) (bty _ (by simp)) (bty _ (by simp))
  have w3 := cmpList_four a12 a13 a14 a15 b12 b13 b14 b15
    (bx _ (by simp)) (bx _ (by simp)) (bx _ (by simp)) (bx _ (by simp))
    (bty _ (by simp)) (bty _ (by simp)) (bty _ (by simp)) (bty _ (by simp))
  exact cmpList_word_step _ _ _ _ _ _ _ _ w0 rfl
    (cmpList_word_step _ _ _ _ _ _ _ _ w1 rfl
      (cmpList_word_step _ _ _ _ _ _ _ _ w2 rfl
        (cmpList_word_step _ _ _ _ _ _ _ _ w3 rfl rfl)))

/-- C1: for every two addresses of the same kind (with well-formed
buffers), `scamper_addr_cmp` returns -1, 0 or 1 according to the
lexicographic ordering of the raw address bytes in network byte order,
i.e. it agrees with the sign of a byte-for-byte memcmp of the two
fixed-width buffers. -/
theorem scamper_addr_cmp_memcmp (a b : scamper_addr_t) (ht : a.type = b.type)
    (ha : a.addr.length = a.type.size) (hb : b.addr.length = b.type.size)
    (hba : ∀ v ∈ a.addr, v < 256) (hbb : ∀ v ∈ b.addr, v < 256) :
    scamper_addr_cmp a b = memcmp a.type.size a.addr b.addr := by
  obtain ⟨ta, la⟩ := a
  obtain ⟨tb, lb⟩ := b
  simp only at ht ha hb hba hbb ⊢
  subst ht
  unfold scamper_addr_cmp
  by_cases heq : (⟨ta, la⟩ : scamper_addr_t) = ⟨ta, lb⟩
  · rw [if_pos heq]
    cases heq
    exact (cmpList_self _).symm
  · rw [if_neg heq, if_pos rfl]
    cases ta
    · exact ipv4_cmp_eq_memcmp la lb ha hb hba hbb
    · exact ipv6_cmp_eq_memcmp la lb ha hb hba hbb
    · rfl
    · rfl

/-- Witness for C1 at a concrete IPv4 pair. -/
theorem scamper_addr_cmp_memcmp_witness :
    ((⟨.ipv4, [10, 0, 0, 2]⟩ : scamper_addr_t).type =
        (⟨.ipv4, [10, 0, 0, 1]⟩ : scamper_addr_t).type)
    ∧ scamper_addr_cmp ⟨.ipv4, [10, 0, 0, 2]⟩ ⟨.ipv4, [10, 0, 0, 1]⟩ =
        memcmp 4 [10, 0, 0, 2] [10, 0, 0, 1] :=
  ⟨rfl, scamper_addr_cmp_memcmp ⟨.ipv4, [10, 0, 0, 2]⟩ ⟨.ipv4, [10, 0, 0, 1]⟩
    rfl (by decide) (by decide) (by decide) (by decide)⟩

/-- Kind discriminants are distinct, so they identify the kind. -/
theorem AddrType.num_injective : ∀ s t : AddrType, s.num = t.num → s = t := by
  intro s t h
  cases s <;> cases t <;> simp_all [AddrType.num]

theorem scamper_addr_cmp_antisymm_aux (a b : scamper_addr_t) :
    scamper_addr_cmp a b = -scamper_addr_cmp b a := by
  unfold scamper_addr_cmp
  by_cases hab : a = b
  · subst hab
    simp
  · rw [if_neg hab, if_neg (Ne.symm hab)]
    by_cases ht : a.type = b.type
    · rw [if_pos ht, if_pos ht.symm, ht]
      exact handlers_cmp_antisymm _ _ _
    · rw [if_neg ht, if_neg (Ne.symm ht)]
      have hne : a.type.num ≠ b.type.num :=
        fun h => ht (AddrType.num_injective _ _ h)
      split_ifs <;> omega

theorem scamper_addr_cmp_trans_aux (a b c : scamper_addr_t)
    (h1 : scamper_addr_cmp a b < 0) (h2 : scamper_addr_cmp b c < 0) :
    scamper_addr_cmp a c < 0 := by
  by_cases hab : a = b
  · subst hab
    simp [scamper_addr_cmp] at h1
  by_cases hbc : b = c
  · subst hbc
    simp [scamper_addr_cmp] at h2
  by_cases hac : a = c
  · subst hac
    have := scamper_addr_cmp_antisymm_aux a b
    omega
  unfold scamper_addr_cmp at h1 h2 ⊢
  rw [if_neg hab] at h1
  rw [if_neg hbc] at h2
  rw [if_neg hac]
  by_cases t1 : a.type = b.type <;> by_cases t2 : b.type = c.type
  · rw [if_pos t1] at h1
    rw [if_pos t2] at h2
    rw [if_pos (t1.trans t2), t1]
    rw [t1] at h1
    exact handlers_cmp_trans_neg _ h1 h2
  · have hac' : a.type ≠ c.type := fun h => t2 (t1.symm.trans h)
    rw [if_neg hac']
    rw [if_neg t2] at h2
    split_ifs at h2 with hb2
    · have : a.type.num < c.type.num := by rw [t1]; exact hb2
      rw [if_pos this]
      norm_num
    · omega
  · have hac' : a.type ≠ c.type := fun h => t1 (h.trans t2.symm)
    rw [if_neg hac']
    rw [if_neg t1] at h1
    split_ifs at h1 with hb1
    · have : a.type.num < c.type.num := by rw [← t2]; exact hb1
      rw [if_pos this]
      norm_num
    · omega
  · rw [if_neg t1] at h1
    rw [if_neg t2] at h2
    split_ifs at h1 with hb1
    · split_ifs at h2 with hb2
      · have hlt : a.type.num < c.type.num := Nat.lt_trans hb1 hb2
        have hac' : a.type ≠ c.type := fun h => by rw [h] at hlt; omega
        rw [if_neg hac', if_pos hlt]
        norm_num
      · omega
    · omega

/-- C8: `scamper_addr_cmp` is a strict total order on addresses:
reflexive instances compare 0 (the identity fast-path), the order is
antisymmetric and transitive, and for different kinds the result is
determined solely by the kind discriminants (lower discriminant first),
never by the bytes. -/
theorem scamper_addr_cmp_strict_order (a b c : scamper_addr_t) :
    scamper_addr_cmp a a = 0
    ∧ scamper_addr_cmp a b = -scamper_addr_cmp b a
    ∧ (scamper_addr_cmp a b < 0 → scamper_addr_cmp b c < 0 →
        scamper_addr_cmp a c < 0)
    ∧ (a.type ≠ b.type →
        scamper_addr_cmp a b = if a.type.num < b.type.num then -1 else 1) := by
  refine ⟨by simp [scamper_addr_cmp], scamper_addr_cmp_antisymm_aux a b,
    scamper_addr_cmp_trans_aux a b c, fun ht => ?_⟩
  have hne : a ≠ b := fun h => ht (h ▸ rfl)
  simp [scamper_addr_cmp, hne, ht]

/-- Witness for C8 at three concrete addresses of three different kinds. -/
theorem scamper_addr_cmp_strict_order_witness :
    scamper_addr_cmp ⟨.ipv4, [1, 2, 3, 4]⟩ ⟨.ipv6, [0]⟩ < 0
    ∧ scamper_addr_cmp ⟨.ipv6, [0]⟩ ⟨.ethernet, [5]⟩ < 0
    ∧ scamper_addr_cmp ⟨.ipv4, [1, 2, 3, 4]⟩ ⟨.ethernet, [5]⟩ < 0
    ∧ scamper_addr_cmp ⟨.ipv4, [1, 2, 3, 4]⟩ ⟨.ipv6, [0]⟩ =
        if (AddrType.ipv4.num < AddrType.ipv6.num) then -1 else 1 :=
  ⟨by decide, by decide,
    (scamper_addr_cmp_strict_order ⟨.ipv4, [1, 2, 3, 4]⟩ ⟨.ipv6, [0]⟩
      ⟨.ethernet, [5]⟩).2.2.1 (by decide) (by decide),
    (scamper_addr_cmp_strict_order ⟨.ipv4, [1, 2, 3, 4]⟩ ⟨.ipv6, [0]⟩
      ⟨.ethernet, [5]⟩).2.2.2 (by decide)⟩


/-- Unfolding the outer `ipv6_prefix` loop on two equal leading words. -/
theorem ipv6_prefix_words_cons_eq (u : Nat) (uas ubs : List Nat) (x : Nat) :
    ipv6_prefix_words (u :: uas) (u :: ubs) x = ipv6_prefix_words uas ubs (x + 32) := by
  simp [ipv6_prefix_words]

/-- Unfolding the outer `ipv6_prefix` loop on two unequal leading words. -/
theorem ipv6_prefix_words_cons_ne (ua ub : Nat) (uas ubs : List Nat) (x : Nat)
    (h : ¬ ua = ub) :
    ipv6_prefix_words (ua :: uas) (ub :: ubs) x =
      match ipv6_prefix_go (ua ^^^ ub) x 32 with
      | some r => r
      | none => ipv6_prefix_words uas ubs (x + 32) := by
  simp [ipv6_prefix_words, h]

/-- C6: for an IPv4 or IPv6 address, the common-prefix length of the
address with itself is the kind's bit width (32/128), and for two
addresses of the same kind whose values differ exactly in the final bit
the common-prefix length is bit width minus one (31/127). -/
theorem scamper_addr_prefix_spec (a b : scamper_addr_t) :
    (a.type = .ipv4 → scamper_addr_prefix a a = 32)
    ∧ (a.type = .ipv6 → scamper_addr_prefix a a = 128)
    ∧ (a.type = .ipv4 → b.type = .ipv4 →
        be32 a.addr 0 ^^^ be32 b.addr 0 = 1 → scamper_addr_prefix a b = 31)
    ∧ (a.type = .ipv6 → b.type = .ipv6 →
        be32 a.addr 0 = be32 b.addr 0 → be32 a.addr 1 = be32 b.addr 1 →
        be32 a.addr 2 = be32 b.addr 2 → be32 a.addr 3 ^^^ be32 b.addr 3 = 1 →
        scamper_addr_prefix a b = 127) := by
  refine ⟨fun h => ?_, fun h => ?_, fun ha hb hx => ?_, fun ha hb e0 e1 e2 hx => ?_⟩
  · have hv : ipv4_prefix a a = 32 := by
      unfold ipv4_prefix
      rw [Nat.xor_self]
      decide
    simp [ scamper_addr_prefix, h, hv]
  · have hv : ipv6_prefix a a = 128 := by
      unfold ipv6_prefix words16
      rw [ipv6_prefix_words_cons_eq, ipv6_prefix_words_cons_eq,
        ipv6_prefix_words_cons_eq, ipv6_prefix_words_cons_eq]
      rfl
    simp [ scamper_addr_prefix, h, hv]
  · have hv : ipv4_prefix a b = 31 := by
      unfold ipv4_prefix
      rw [hx]
      decide
    simp [ scamper_addr_prefix, ha, hb, hv]
  · have hne : ¬ be32 a.addr 3 = be32 b.addr 3 := by
      intro h
      rw [h, Nat.xor_self] at hx
      omega
    have hv : ipv6_prefix a b = 127 := by
      unfold ipv6_prefix words16
      rw [← e0, ← e1, ← e2]
      rw [ipv6_prefix_words_cons_eq, ipv6_prefix_words_cons_eq,
        ipv6_prefix_words_cons_eq, ipv6_prefix_words_cons_ne _ _ _ _ _ hne]
      rw [hx]
      decide
    simp [ scamper_addr_prefix, ha, hb, hv]

/-- Witness for C6 at concrete IPv4 and IPv6 pairs. -/
theorem scamper_addr_prefix_spec_witness :
    scamper_addr_prefix ⟨.ipv4, [192, 168, 1, 0]⟩ ⟨.ipv4, [192, 168, 1, 0]⟩ = 32
    ∧ scamper_addr_prefix ⟨.ipv4, [192, 168, 1, 0]⟩ ⟨.ipv4, [192, 168, 1, 1]⟩ = 31
    ∧ scamper_addr_prefix
        ⟨.ipv6, [0, 0, 0, 0, 0, 0, 0, 0, 0, 0, 0, 0, 0, 0, 0, 0]⟩
        ⟨.ipv6, [0, 0, 0, 0, 0, 0, 0, 0, 0, 0, 0, 0, 0, 0, 0, 0]⟩ = 128
    ∧ scamper_addr_prefix
        ⟨.ipv6, [0, 0, 0, 0, 0, 0, 0, 0, 0, 0, 0, 0, 0, 0, 0, 0]⟩
        ⟨.ipv6, [0, 0, 0, 0, 0, 0, 0, 0, 0, 0, 0, 0, 0, 0, 0, 1]⟩ = 127 :=
  ⟨(scamper_addr_prefix_spec ⟨.ipv4, [192, 168, 1, 0]⟩
      ⟨.ipv4, [192, 168, 1, 0]⟩).1 rfl,
   (scamper_addr_prefix_spec ⟨.ipv4, [192, 168, 1, 0]⟩
      ⟨.ipv4, [192, 168, 1, 1]⟩).2.2.1 rfl rfl (by decide),
   (scamper_addr_prefix_spec
      ⟨.ipv6, [0, 0, 0, 0, 0, 0, 0, 0, 0, 0, 0, 0, 0, 0, 0, 0]⟩
      ⟨.ipv6, [0, 0, 0, 0, 0, 0, 0, 0, 0, 0, 0, 0, 0, 0, 0, 0]⟩).2.1 rfl,
   (scamper_addr_prefix_spec
      ⟨.ipv6, [0, 0, 0, 0, 0, 0, 0, 0, 0, 0, 0, 0, 0, 0, 0, 0]⟩
      ⟨.ipv6, [0, 0, 0, 0, 0, 0, 0, 0, 0, 0, 0, 0, 0, 0, 0, 1]⟩).2.2.2
      rfl rfl (by decide) (by decide) (by decide) (by decide)⟩

/-- Unfolding one iteration of the `ipv6_inprefix` word loop. -/
theorem ipv6_inprefix_go_cons (a p : Nat) (as ps : List Nat) (len : Nat) :
    ipv6_inprefix_go (a :: as) (p :: ps) len =
      if (a ^^^ p) &&&
          (if len > 32 then uint32_netmask.getD 31 0
            else uint32_netmask.getD (len - 1) 0) ≠ 0
        then 0
      else if len ≤ 32 then 1
      else ipv6_inprefix_go as ps (len - 32) := rfl

/-- One loop iteration answers 0 or 1, or defers to the rest of the loop
with 32 fewer bits. -/
theorem ipv6_inprefix_go_cons_total (w v : Nat) (ws vs : List Nat) (len : Nat)
    (hrec : 32 < len →
      (ipv6_inprefix_go ws vs (len - 32) = 0 ∨ ipv6_inprefix_go ws vs (len - 32) = 1)) :
    ipv6_inprefix_go (w :: ws) (v :: vs) len = 0 ∨
      ipv6_inprefix_go (w :: ws) (v :: vs) len = 1 := by
  rw [ipv6_inprefix_go_cons]
  by_cases hm : (w ^^^ v) &&&
      (if len > 32 then uint32_netmask.getD 31 0
        else uint32_netmask.getD (len - 1) 0) ≠ 0
  · rw [if_pos hm]
    exact Or.inl rfl
  · rw [if_neg hm]
    by_cases hl : len ≤ 32
    · rw [if_pos hl]
      exact Or.inr rfl
    · rw [if_neg hl]
      exact hrec (by omega)

/-- The word loop of `ipv6_inprefix` answers 0 or 1 on any four-word pair
when `1 ≤ len ≤ 128` (shared between C5 and C9). -/
theorem ipv6_inprefix_go_total_aux (w0 w1 w2 w3 v0 v1 v2 v3 : Nat) (len : Nat)
    (h1 : 1 ≤ len) (h2 : len ≤ 128) :
    ipv6_inprefix_go [w0, w1, w2, w3] [v0, v1, v2, v3] len = 0 ∨
      ipv6_inprefix_go [w0, w1, w2, w3] [v0, v1, v2, v3] len = 1 := by
  refine ipv6_inprefix_go_cons_total w0 v0 _ _ len (fun g1 => ?_)
  refine ipv6_inprefix_go_cons_total w1 v1 _ _ _ (fun g2 => ?_)
  refine ipv6_inprefix_go_cons_total w2 v2 _ _ _ (fun g3 => ?_)
  refine ipv6_inprefix_go_cons_total w3 v3 _ _ _ (fun g4 => ?_)
  exfalso
  omega

/-- C5: `scamper_addr_inprefix` treats length 0 as a wildcard for the IP
kinds, rejects lengths beyond the kind's bit width with the -1 sentinel,
treats length exactly equal to the bit width as valid (a boolean result),
and rejects every length on Ethernet and FireWire addresses. -/
theorem scamper_addr_inprefix_bounds (a : scamper_addr_t) (p : List Nat) (len : Nat) :
    ((a.type = .ipv4 ∨ a.type = .ipv6) → scamper_addr_inprefix a p 0 = 1)
    ∧ (a.type = .ipv4 → 32 < len → scamper_addr_inprefix a p len = -1)
    ∧ (a.type = .ipv6 → 128 < len → scamper_addr_inprefix a p len = -1)
    ∧ (a.type = .ipv4 →
        scamper_addr_inprefix a p 32 = 0 ∨ scamper_addr_inprefix a p 32 = 1)
    ∧ (a.type = .ipv6 →
        scamper_addr_inprefix a p 128 = 0 ∨ scamper_addr_inprefix a p 128 = 1)
    ∧ ((a.type = .ethernet ∨ a.type = .firewire) →
        scamper_addr_inprefix a p len = -1) := by
  refine ⟨fun h => ?_, fun h hl => ?_, fun h hl => ?_, fun h => ?_, fun h => ?_,
    fun h => ?_⟩
  · rcases h with h | h <;>
      simp [ scamper_addr_inprefix, h, ipv4_inprefix, ipv6_inprefix]
  · have h0 : ¬ len = 0 := by omega
    simp [ scamper_addr_inprefix, h, ipv4_inprefix, h0, hl]
  · have h0 : ¬ len = 0 := by omega
    simp [ scamper_addr_inprefix, h, ipv6_inprefix, h0, hl]
  · simp only [ scamper_addr_inprefix, h, ipv4_inprefix]
    norm_num
    tauto
  · simp only [ scamper_addr_inprefix, h, ipv6_inprefix]
    norm_num
    simp only [words16]
    exact ipv6_inprefix_go_total_aux _ _ _ _ _ _ _ _ 128 (by omega) (by omega)
  · rcases h with h | h <;> simp [ scamper_addr_inprefix, h]

/-- Witness for C5 at a concrete IPv4 address and an Ethernet address. -/
theorem scamper_addr_inprefix_bounds_witness :
    scamper_addr_inprefix ⟨.ipv4, [10, 0, 0, 1]⟩ [10, 0, 0, 0] 0 = 1
    ∧ scamper_addr_inprefix ⟨.ipv4, [10, 0, 0, 1]⟩ [10, 0, 0, 0] 33 = -1
    ∧ ( scamper_addr_inprefix ⟨.ipv4, [10, 0, 0, 1]⟩ [10, 0, 0, 0] 32 = 0 ∨
        scamper_addr_inprefix ⟨.ipv4, [10, 0, 0, 1]⟩ [10, 0, 0, 0] 32 = 1)
    ∧ scamper_addr_inprefix ⟨.ethernet, [1, 2, 3, 4, 5, 6]⟩ [1, 2, 3, 4, 5, 6] 0 = -1 :=
  ⟨(scamper_addr_inprefix_bounds ⟨.ipv4, [10, 0, 0, 1]⟩ [10, 0, 0, 0] 0).1
      (Or.inl rfl),
   (scamper_addr_inprefix_bounds ⟨.ipv4, [10, 0, 0, 1]⟩ [10, 0, 0, 0] 33).2.1
      rfl (by decide),
   (scamper_addr_inprefix_bounds ⟨.ipv4, [10, 0, 0, 1]⟩ [10, 0, 0, 0] 32).2.2.2.1
      rfl,
   (scamper_addr_inprefix_bounds ⟨.ethernet, [1, 2, 3, 4, 5, 6]⟩
      [1, 2, 3, 4, 5, 6] 0).2.2.2.2.2 (Or.inl rfl)⟩

/-- C9: for prefix lengths between 1 and 128, the IPv6 word-scanning loop
of `ipv6_inprefix` answers 0 or 1 within its four 32-bit iterations; the
trailing error return after the loop is unreachable. -/
theorem ipv6_inprefix_loop_total (x y : List Nat) (len : Nat)
    (h1 : 1 ≤ len) (h2 : len ≤ 128) :
    ipv6_inprefix_go (words16 x) (words16 y) len = 0 ∨
      ipv6_inprefix_go (words16 x) (words16 y) len = 1 := by
  simp only [words16]
  exact ipv6_inprefix_go_total_aux _ _ _ _ _ _ _ _ len h1 h2

/-- Witness for C9 at a concrete pair of buffers and length 64. -/
theorem ipv6_inprefix_loop_total_witness :
    1 ≤ 64 ∧ 64 ≤ 128
    ∧ (ipv6_inprefix_go (words16 [0]) (words16 [0]) 64 = 0 ∨
        ipv6_inprefix_go (words16 [0]) (words16 [0]) 64 = 1) :=
  ⟨by decide, by decide,
    ipv6_inprefix_loop_total [0] [0] 64 (by decide) (by decide)⟩

/-- Masking with a shifted low-bits mask extracts a bit field; with the
value bounded, it keeps the top bits and zeroes the bottom `k`. -/
theorem and_shifted_mask_eq (v m k : Nat) (hv : v < 2 ^ (k + m)) :
    v &&& (2 ^ m - 1) * 2 ^ k = v / 2 ^ k * 2 ^ k := by
  apply Nat.eq_of_testBit_eq
  intro j
  rw [show (2 ^ m - 1) * 2 ^ k = (2 ^ m - 1) <<< k from (Nat.shiftLeft_eq _ _).symm]
  rw [show v / 2 ^ k * 2 ^ k = (v >>> k) <<< k by
    rw [Nat.shiftLeft_eq, Nat.shiftRight_eq_div_pow]]
  rw [Nat.testBit_and, Nat.testBit_shiftLeft, Nat.testBit_shiftLeft,
    Nat.testBit_shiftRight]
  by_cases hk : k ≤ j
  · have hj : k + (j - k) = j := by omega
    rw [hj]
    by_cases hm : j - k < m
    · have ht : (2 ^ m - 1).testBit (j - k) = true := by
        rw [Nat.testBit_two_pow_sub_one]
        simpa using hm
      simp [hk, ht, ge_iff_le, Bool.and_comm]
    · have hvf : v.testBit j = false :=
        Nat.testBit_eq_false_of_lt
          (lt_of_lt_of_le hv (Nat.pow_le_pow_right (by norm_num) (by omega)))
      have ht : (2 ^ m - 1).testBit (j - k) = false := by
        rw [Nat.testBit_two_pow_sub_one]
        simpa using hm
      simp [hvf, ht]
  · simp [hk]

/-- Closed form of the `uint32_netmask` table entries. -/
theorem uint32_netmask_getD_eq (j : Nat) (h : j < 32) :
    uint32_netmask.getD j 0 = (2 ^ (j + 1) - 1) * 2 ^ (31 - j) := by
  interval_cases j <;> rfl

/-- Entries of a byte buffer (with default 0) are bytes. -/
theorem getD_lt_256 (l : List Nat) (hb : ∀ v ∈ l, v < 256) (i : Nat) :
    l.getD i 0 < 256 := by
  rw [List.getD_eq_getElem?_getD]
  rcases h : l[i]? with _ | x
  · simp
  · have hm : x ∈ l := List.getElem?_mem h
    simp only [Option.getD_some]
    exact hb x hm

/-- The 32-bit loads of a well-formed byte buffer fit in 32 bits. -/
theorem be32_lt (l : List Nat) (hb : ∀ v ∈ l, v < 256) (i : Nat) :
    be32 l i < 2 ^ 32 := by
  have h0 := getD_lt_256 l hb (4 * i)
  have h1 := getD_lt_256 l hb (4 * i + 1)
  have h2 := getD_lt_256 l hb (4 * i + 2)
  have h3 := getD_lt_256 l hb (4 * i + 3)
  have e : (2 : Nat) ^ 32 = 4294967296 := by norm_num
  unfold be32
  omega

/-- Masking a 32-bit value with `uint32_netmask[n-1]` keeps the top `n`
bits and zeroes the remaining `32-n`. -/
theorem and_mask_keep_top (v n : Nat) (hn1 : 1 ≤ n) (hn2 : n ≤ 32) (hv : v < 2 ^ 32) :
    v &&& uint32_netmask.getD (n - 1) 0 = v / 2 ^ (32 - n) * 2 ^ (32 - n) := by
  rw [uint32_netmask_getD_eq (n - 1) (by omega)]
  have e1 : n - 1 + 1 = n := by omega
  have e2 : 31 - (n - 1) = 32 - n := by omega
  rw [e1, e2]
  exact and_shifted_mask_eq v n (32 - n)
    (by rw [show 32 - n + n = 32 by omega]; exact hv)

/-- The skip condition of the `ipv4_prefixhosts` shrink loop: the host
portion of `v` under candidate length `j` is all-zero or all-one. -/
def hostdeg (v j : Nat) : Prop :=
  v &&& uint32_hostmask.getD j 0 = 0 ∨
    v &&& uint32_hostmask.getD j 0 = uint32_hostmask.getD j 0

instance hostdeg_decidable (v j : Nat) : Decidable (hostdeg v j) :=
  inferInstanceAs (Decidable (_ ∨ _))

/-- Unfolding one iteration of the shrink loop in terms of `hostdeg`. -/
theorem ipv4_prefixhosts_loop_succ (av bv i : Nat) :
    ipv4_prefixhosts_loop av bv (i + 1) =
      if hostdeg av (i + 1) then ipv4_prefixhosts_loop av bv i
      else if hostdeg bv (i + 1) then ipv4_prefixhosts_loop av bv i
      else i + 1 := rfl

/-- Characterisation of the shrink loop: it returns the largest candidate
length at most `i` at which neither host portion is degenerate, or 0. -/
theorem ipv4_prefixhosts_loop_spec (av bv : Nat) :
    ∀ i, ipv4_prefixhosts_loop av bv i ≤ i
      ∧ (ipv4_prefixhosts_loop av bv i = 0 ∨
          (¬ hostdeg av (ipv4_prefixhosts_loop av bv i)
            ∧ ¬ hostdeg bv (ipv4_prefixhosts_loop av bv i)))
      ∧ ∀ j, ipv4_prefixhosts_loop av bv i < j → j ≤ i →
          hostdeg av j ∨ hostdeg bv j := by
  intro i
  induction i with
  | zero =>
    exact ⟨le_rfl, Or.inl rfl,
      fun j h1 h2 => absurd (Nat.lt_of_lt_of_le h1 h2) (Nat.lt_irrefl _)⟩
  | succ i ih =>
    obtain ⟨ihle, ihval, ihj⟩ := ih
    rw [ipv4_prefixhosts_loop_succ]
    by_cases ha : hostdeg av (i + 1)
    · rw [if_pos ha]
      refine ⟨ihle.trans (by omega), ihval, fun j h1 h2 => ?_⟩
      by_cases hj : j ≤ i
      · exact ihj j h1 hj
      · have hji : j = i + 1 := by omega
        subst hji
        exact Or.inl ha
    · rw [if_neg ha]
      by_cases hb : hostdeg bv (i + 1)
      · rw [if_pos hb]
        refine ⟨ihle.trans (by omega), ihval, fun j h1 h2 => ?_⟩
        by_cases hj : j ≤ i
        · exact ihj j h1 hj
        · have hji : j = i + 1 := by omega
          subst hji
          exact Or.inr hb
      · rw [if_neg hb]
        exact ⟨le_rfl, Or.inr ⟨ha, hb⟩,
          fun j h1 h2 => absurd (Nat.lt_of_lt_of_le h1 h2) (Nat.lt_irrefl _)⟩

/-- C4: for two IPv4 addresses, `ipv4_prefixhosts` returns the common
prefix length unchanged when it is at least 31; otherwise it returns the
largest candidate length not exceeding the common prefix length at which
neither address's host portion is all-zero or all-one, or 0 — i.e. it
shrinks past every candidate with a degenerate host portion.  In
particular the 192.168.1.0 / 192.168.1.1 pair yields 31. -/
theorem scamper_addr_prefixhosts_spec (a b : scamper_addr_t)
    (ha : a.type = .ipv4) (hb : b.type = .ipv4) :
    scamper_addr_prefixhosts a b = ( ipv4_prefixhosts a b : Nat)
    ∧ (31 ≤ ipv4_prefix a b → ipv4_prefixhosts a b = ipv4_prefix a b)
    ∧ ( ipv4_prefix a b < 31 →
        ipv4_prefixhosts a b ≤ ipv4_prefix a b
        ∧ (ipv4_prefixhosts a b = 0 ∨
            (¬ hostdeg (be32 a.addr 0) ( ipv4_prefixhosts a b)
              ∧ ¬ hostdeg (be32 b.addr 0) ( ipv4_prefixhosts a b)))
        ∧ ∀ j, ipv4_prefixhosts a b < j → j ≤ ipv4_prefix a b →
            hostdeg (be32 a.addr 0) j ∨ hostdeg (be32 b.addr 0) j)
    ∧ scamper_addr_prefixhosts ⟨.ipv4, [192, 168, 1, 0]⟩
        ⟨.ipv4, [192, 168, 1, 1]⟩ = 31 := by
  have hunf : ipv4_prefixhosts a b =
      if 31 ≤ ipv4_prefix a b then ipv4_prefix a b
      else ipv4_prefixhosts_loop (be32 a.addr 0) (be32 b.addr 0)
        ( ipv4_prefix a b) := rfl
  refine ⟨by simp [scamper_addr_prefixhosts, ha, hb], fun h => ?_, fun h => ?_, ?_⟩
  · rw [hunf, if_pos h]
  · rw [hunf, if_neg (by omega)]
    exact ipv4_prefixhosts_loop_spec (be32 a.addr 0) (be32 b.addr 0)
      ( ipv4_prefix a b)
  · decide

/-- Witness for C4 at the 10.0.0.7 / 10.0.0.8 pair (common prefix 28) and
the documented 192.168.1.0 / 192.168.1.1 pair. -/
theorem scamper_addr_prefixhosts_spec_witness :
    ipv4_prefix ⟨.ipv4, [10, 0, 0, 7]⟩ ⟨.ipv4, [10, 0, 0, 8]⟩ < 31
    ∧ ipv4_prefixhosts ⟨.ipv4, [10, 0, 0, 7]⟩ ⟨.ipv4, [10, 0, 0, 8]⟩ ≤
        ipv4_prefix ⟨.ipv4, [10, 0, 0, 7]⟩ ⟨.ipv4, [10, 0, 0, 8]⟩
    ∧ scamper_addr_prefixhosts ⟨.ipv4, [10, 0, 0, 7]⟩ ⟨.ipv4, [10, 0, 0, 8]⟩ =
        ( ipv4_prefixhosts ⟨.ipv4, [10, 0, 0, 7]⟩ ⟨.ipv4, [10, 0, 0, 8]⟩ : Nat)
    ∧ scamper_addr_prefixhosts ⟨.ipv4, [192, 168, 1, 0]⟩
        ⟨.ipv4, [192, 168, 1, 1]⟩ = 31 :=
  ⟨by decide,
   ((scamper_addr_prefixhosts_spec ⟨.ipv4, [10, 0, 0, 7]⟩ ⟨.ipv4, [10, 0, 0, 8]⟩
      rfl rfl).2.2.1 (by decide)).1,
   (scamper_addr_prefixhosts_spec ⟨.ipv4, [10, 0, 0, 7]⟩ ⟨.ipv4, [10, 0, 0, 8]⟩
      rfl rfl).1,
   (scamper_addr_prefixhosts_spec ⟨.ipv4, [10, 0, 0, 7]⟩ ⟨.ipv4, [10, 0, 0, 8]⟩
      rfl rfl).2.2.2⟩

/-- Follows the spec's words for the network-address operation: word `i`
of the masked address for prefix length `nl` is kept whole when the
prefix covers the word, zeroed when the prefix ends before it, and
truncated to its leading bits when the boundary falls inside it. -/
def netaddr_spec_word (w nl i : Nat) : Nat :=
  if 32 * (i + 1) ≤ nl then w
  else if nl ≤ 32 * i then 0
  else w / 2 ^ (32 * (i + 1) - nl) * 2 ^ (32 * (i + 1) - nl)

theorem netaddr_spec_word_keep (w nl i : Nat) (h : 32 * (i + 1) ≤ nl) :
    netaddr_spec_word w nl i = w := if_pos h

theorem netaddr_spec_word_zero (w nl i : Nat) (h : nl ≤ 32 * i) :
    netaddr_spec_word w nl i = 0 := by
  unfold netaddr_spec_word
  rw [if_neg (by omega), if_pos h]

/-- The boundary word produced by the `ipv6_netaddr` loop matches the
spec-side word. -/
theorem netaddr_spec_word_boundary (w nl i : Nat) (h1 : 32 * i < nl)
    (h2 : nl ≤ 32 * (i + 1)) :
    netaddr_spec_word w nl i =
      w / 2 ^ (32 - (nl - 32 * i)) * 2 ^ (32 - (nl - 32 * i)) := by
  unfold netaddr_spec_word
  by_cases hb : 32 * (i + 1) ≤ nl
  · have hnl : nl = 32 * (i + 1) := by omega
    subst hnl
    have e : 32 - (32 * (i + 1) - 32 * i) = 0 := by omega
    rw [if_pos le_rfl, e]
    simp
  · rw [if_neg hb, if_neg (by omega)]
    have e : 32 - (nl - 32 * i) = 32 * (i + 1) - nl := by omega
    rw [e]

/-- Unfolding the `ipv6_netaddr` loop on a word fully inside the
prefix. -/
theorem ipv6_netaddr_go_step (w : Nat) (rest : List Nat) (nl : Nat) (h : 32 < nl) :
    ipv6_netaddr_go (w :: rest) nl = w :: ipv6_netaddr_go rest (nl - 32) := by
  show (if 32 ≤ nl then w else w &&& uint32_netmask.getD (nl - 1) 0) ::
      (if nl ≤ 32 then rest.map (fun _ => 0) else ipv6_netaddr_go rest (nl - 32)) = _
  rw [if_pos (by omega), if_neg (by omega)]

/-- Unfolding the `ipv6_netaddr` loop on the word containing the prefix
boundary: the word is masked down to the remaining bits and the loop
breaks, leaving the later words zero. -/
theorem ipv6_netaddr_go_last (w : Nat) (rest : List Nat) (nl : Nat)
    (h1 : 1 ≤ nl) (h2 : nl ≤ 32) (hw : w < 2 ^ 32) :
    ipv6_netaddr_go (w :: rest) nl =
      (w / 2 ^ (32 - nl) * 2 ^ (32 - nl)) :: rest.map (fun _ => 0) := by
  show (if 32 ≤ nl then w else w &&& uint32_netmask.getD (nl - 1) 0) ::
      (if nl ≤ 32 then rest.map (fun _ => 0) else ipv6_netaddr_go rest (nl - 32)) = _
  rw [if_pos h2]
  by_cases h32 : 32 ≤ nl
  · have hnl : nl = 32 := by omega
    subst hnl
    rw [if_pos le_rfl]
    norm_num
  · rw [if_neg h32, and_mask_keep_top w nl h1 h2 hw]

/-- C7: `scamper_addr_netaddr` rejects prefix length 0 (unlike the
in-prefix wildcard), lengths beyond the kind's bit width, and the
Ethernet/FireWire kinds; for IPv4/IPv6 and a length inside (0, width] it
returns the address with the leading `nl` bits kept and all remaining
bits zeroed. -/
theorem scamper_addr_netaddr_spec (a : scamper_addr_t) (nl : Nat) :
    scamper_addr_netaddr a 0 = none
    ∧ (a.type = .ipv4 → 32 < nl → scamper_addr_netaddr a nl = none)
    ∧ (a.type = .ipv6 → 128 < nl → scamper_addr_netaddr a nl = none)
    ∧ ((a.type = .ethernet ∨ a.type = .firewire) → scamper_addr_netaddr a nl = none)
    ∧ (a.type = .ipv4 → 1 ≤ nl → nl ≤ 32 → (∀ v ∈ a.addr, v < 256) →
        scamper_addr_netaddr a nl =
          some [be32 a.addr 0 / 2 ^ (32 - nl) * 2 ^ (32 - nl)])
    ∧ (a.type = .ipv6 → 1 ≤ nl → nl ≤ 128 → (∀ v ∈ a.addr, v < 256) →
        scamper_addr_netaddr a nl =
          some [netaddr_spec_word (be32 a.addr 0) nl 0,
            netaddr_spec_word (be32 a.addr 1) nl 1,
            netaddr_spec_word (be32 a.addr 2) nl 2,
            netaddr_spec_word (be32 a.addr 3) nl 3]) := by
  refine ⟨?_, fun h hl => ?_, fun h hl => ?_, fun h => ?_, fun h h1 h2 hb => ?_,
    fun h h1 h2 hb => ?_⟩
  · cases ht : a.type <;>
      simp [scamper_addr_netaddr, ht, ipv4_netaddr, ipv6_netaddr]
  · simp [scamper_addr_netaddr, h, ipv4_netaddr, hl]
  · simp [scamper_addr_netaddr, h, ipv6_netaddr, hl]
  · rcases h with h | h <;> simp [scamper_addr_netaddr, h]
  · have hv := be32_lt a.addr hb 0
    simp only [scamper_addr_netaddr, h, ipv4_netaddr]
    rw [if_neg (by omega), and_mask_keep_top _ nl h1 h2 hv]
  · have hv0 := be32_lt a.addr hb 0
    have hv1 := be32_lt a.addr hb 1
    have hv2 := be32_lt a.addr hb 2
    have hv3 := be32_lt a.addr hb 3
    simp only [scamper_addr_netaddr, h, ipv6_netaddr]
    rw [if_neg (by omega)]
    simp only [words16]
    by_cases q1 : nl ≤ 32
    · rw [ipv6_netaddr_go_last _ _ _ h1 q1 hv0,
        netaddr_spec_word_boundary _ nl 0 (by omega) (by omega),
        netaddr_spec_word_zero _ nl 1 (by omega),
        netaddr_spec_word_zero _ nl 2 (by omega),
        netaddr_spec_word_zero _ nl 3 (by omega)]
      norm_num
    · by_cases q2 : nl ≤ 64
      · rw [ipv6_netaddr_go_step _ _ _ (by omega),
          ipv6_netaddr_go_last _ _ _ (by omega) (by omega) hv1,
          netaddr_spec_word_keep _ nl 0 (by omega),
          netaddr_spec_word_boundary _ nl 1 (by omega) (by omega),
          netaddr_spec_word_zero _ nl 2 (by omega),
          netaddr_spec_word_zero _ nl 3 (by omega)]
        have e : 32 - (nl - 32 * 1) = 32 - (nl - 32) := by omega
        rw [e]
        norm_num
      · by_cases q3 : nl ≤ 96
        · rw [ipv6_netaddr_go_step _ _ _ (by omega),
            ipv6_netaddr_go_step _ _ _ (by omega),
            ipv6_netaddr_go_last _ _ _ (by omega) (by omega) hv2,
            netaddr_spec_word_keep _ nl 0 (by omega),
            netaddr_spec_word_keep _ nl 1 (by omega),
            netaddr_spec_word_boundary _ nl 2 (by omega) (by omega),
            netaddr_spec_word_zero _ nl 3 (by omega)]
          have e : 32 - (nl - 32 * 2) = 32 - (nl - 32 - 32) := by omega
          rw [e]
          norm_num
        · rw [ipv6_netaddr_go_step _ _ _ (by omega),
            ipv6_netaddr_go_step _ _ _ (by omega),
            ipv6_netaddr_go_step _ _ _ (by omega),
            ipv6_netaddr_go_last _ _ _ (by omega) (by omega) hv3,
            netaddr_spec_word_keep _ nl 0 (by omega),
            netaddr_spec_word_keep _ nl 1 (by omega),
            netaddr_spec_word_keep _ nl 2 (by omega),
            netaddr_spec_word_boundary _ nl 3 (by omega) (by omega)]
          have e : 32 - (nl - 32 * 3) = 32 - (nl - 32 - 32 - 32) := by omega
          rw [e]
          norm_num

/-- Witness for C7: concrete IPv4 /24 and IPv6 /40 network addresses, a
rejected length 0, and a rejected Ethernet query. -/
theorem scamper_addr_netaddr_spec_witness :
    scamper_addr_netaddr ⟨.ipv4, [192, 168, 1, 77]⟩ 0 = none
    ∧ scamper_addr_netaddr ⟨.ipv4, [192, 168, 1, 77]⟩ 33 = none
    ∧ scamper_addr_netaddr ⟨.ethernet, [1, 2, 3, 4, 5, 6]⟩ 8 = none
    ∧ scamper_addr_netaddr ⟨.ipv4, [192, 168, 1, 77]⟩ 24 =
        some [be32 [192, 168, 1, 77] 0 / 2 ^ 8 * 2 ^ 8]
    ∧ scamper_addr_netaddr
        ⟨.ipv6, [0x20, 0x01, 0x0d, 0xb8, 0xaa, 0xbb, 0xcc, 0xdd,
          1, 2, 3, 4, 5, 6, 7, 8]⟩ 40 =
        some [netaddr_spec_word
            (be32 [0x20, 0x01, 0x0d, 0xb8, 0xaa, 0xbb, 0xcc, 0xdd,
              1, 2, 3, 4, 5, 6, 7, 8] 0) 40 0,
          netaddr_spec_word
            (be32 [0x20, 0x01, 0x0d, 0xb8, 0xaa, 0xbb, 0xcc, 0xdd,
              1, 2, 3, 4, 5, 6, 7, 8] 1) 40 1,
          netaddr_spec_word
            (be32 [0x20, 0x01, 0x0d, 0xb8, 0xaa, 0xbb, 0xcc, 0xdd,
              1, 2, 3, 4, 5, 6, 7, 8] 2) 40 2,
          netaddr_spec_word
            (be32 [0x20, 0x01, 0x0d, 0xb8, 0xaa, 0xbb, 0xcc, 0xdd,
              1, 2, 3, 4, 5, 6, 7, 8] 3) 40 3] :=
  ⟨(scamper_addr_netaddr_spec ⟨.ipv4, [192, 168, 1, 77]⟩ 0).1,
   (scamper_addr_netaddr_spec ⟨.ipv4, [192, 168, 1, 77]⟩ 33).2.1 rfl (by decide),
   (scamper_addr_netaddr_spec ⟨.ethernet, [1, 2, 3, 4, 5, 6]⟩ 8).2.2.2.1
      (Or.inl rfl),
   (scamper_addr_netaddr_spec ⟨.ipv4, [192, 168, 1, 77]⟩ 24).2.2.2.2.1
      rfl (by decide) (by decide) (by decide),
   (scamper_addr_netaddr_spec
      ⟨.ipv6, [0x20, 0x01, 0x0d, 0xb8, 0xaa, 0xbb, 0xcc, 0xdd,
        1, 2, 3, 4, 5, 6, 7, 8]⟩ 40).2.2.2.2.2
      rfl (by decide) (by decide) (by decide)⟩

/-- C10: `scamper_addr_free` tolerates NULL (no effect at all), and
`scamper_addr_use` returns NULL unchanged on NULL input and otherwise
returns the same instance with the refcount bumped by exactly one and
nothing else changed. -/
theorem scamper_addr_use_free_null (σ : CState) (id : Nat) (o : AddrObj) :
    scamper_addr_free σ none = σ
    ∧ scamper_addr_use σ none = (σ, none)
    ∧ (σ.heap id = some o →
        (scamper_addr_use σ (some id)).2 = some id
        ∧ (scamper_addr_use σ (some id)).1.heap id =
            some { o with refcnt := o.refcnt + 1 }
        ∧ (∀ x, ¬ x = id → (scamper_addr_use σ (some id)).1.heap x = σ.heap x)
        ∧ (scamper_addr_use σ (some id)).1.trees = σ.trees
        ∧ (scamper_addr_use σ (some id)).1.next = σ.next) := by
  refine ⟨rfl, rfl, fun ho => ⟨rfl, ?_, fun x hx => ?_, rfl, rfl⟩⟩
  · simp [scamper_addr_use, ho]
  · simp [scamper_addr_use, hx]

/-- Witness for C10 on the one-entry cache state. -/
theorem scamper_addr_use_free_null_witness :
    scamper_addr_free (scamper_addrcache_get emptyCache .ipv4 [10, 0, 0, 1]).1 none =
        (scamper_addrcache_get emptyCache .ipv4 [10, 0, 0, 1]).1
    ∧ (scamper_addrcache_get emptyCache .ipv4 [10, 0, 0, 1]).1.heap 0 =
        some ⟨.ipv4, [10, 0, 0, 1], 1, true⟩
    ∧ (scamper_addr_use (scamper_addrcache_get emptyCache .ipv4 [10, 0, 0, 1]).1
        (some 0)).1.heap 0 = some ⟨.ipv4, [10, 0, 0, 1], 2, true⟩ :=
  ⟨(scamper_addr_use_free_null (scamper_addrcache_get emptyCache .ipv4 [10, 0, 0, 1]).1
      0 ⟨.ipv4, [10, 0, 0, 1], 1, true⟩).1,
   by decide,
   ((scamper_addr_use_free_null (scamper_addrcache_get emptyCache .ipv4 [10, 0, 0, 1]).1
      0 ⟨.ipv4, [10, 0, 0, 1], 1, true⟩).2.2 (by decide)).2.1⟩

/-- C3: destroying the cache clears the back-reference of every address
resident in a tree without deallocating it or touching its other fields;
afterwards a release that drops such a detached address's refcount to 0
deallocates it directly — its back-reference is clear, so no cache
container is consulted and the trees stay as the (discarded, empty)
destroyed state left them. -/
theorem scamper_addrcache_free_detach (σ : CState) :
    (∀ k id o, id ∈ σ.trees k → σ.heap id = some o →
        (scamper_addrcache_free σ).heap id = some { o with internal := false })
    ∧ (∀ id o, σ.heap id = some o →
        ∃ o', (scamper_addrcache_free σ).heap id = some o'
          ∧ o'.refcnt = o.refcnt ∧ o'.addr = o.addr ∧ o'.type = o.type)
    ∧ (∀ id, σ.heap id = none → (scamper_addrcache_free σ).heap id = none)
    ∧ (∀ k, (scamper_addrcache_free σ).trees k = [])
    ∧ (∀ k id o, id ∈ σ.trees k → σ.heap id = some o → o.refcnt = 1 →
        (scamper_addr_free (scamper_addrcache_free σ) (some id)).heap id = none
        ∧ (∀ x, ¬ x = id →
            (scamper_addr_free (scamper_addrcache_free σ) (some id)).heap x =
              (scamper_addrcache_free σ).heap x)
        ∧ (scamper_addr_free (scamper_addrcache_free σ) (some id)).trees =
            (scamper_addrcache_free σ).trees) := by
  have hres : ∀ k id, id ∈ σ.trees k → residentIn σ id = true := by
    intro k id hm
    cases k <;> simp [residentIn, hm]
  have hdetach : ∀ k id o, id ∈ σ.trees k → σ.heap id = some o →
      (scamper_addrcache_free σ).heap id = some { o with internal := false } := by
    intro k id o hm ho
    simp [scamper_addrcache_free, ho, hres k id hm]
  refine ⟨hdetach, ?_, ?_, fun k => rfl, ?_⟩
  · intro id o ho
    by_cases hr : residentIn σ id = true
    · exact ⟨{ o with internal := false },
        by simp [scamper_addrcache_free, ho, hr], rfl, rfl, rfl⟩
    · exact ⟨o, by simp [scamper_addrcache_free, ho, hr], rfl, rfl, rfl⟩
  · intro id ho
    simp [scamper_addrcache_free, ho]
  · intro k id o hm ho h1
    have hd := hdetach k id o hm ho
    refine ⟨?_, fun x hx => ?_, ?_⟩
    · simp [scamper_addr_free, hd, h1]
    · simp [scamper_addr_free, hd, h1, hx]
    · simp [scamper_addr_free, hd, h1]

/-- `find?` only depends on the predicate's values on the list. -/
theorem find_congr {α : Type} (p q : α → Bool) (l : List α)
    (h : ∀ x ∈ l, p x = q x) : l.find? p = l.find? q := by
  induction l with
  | nil => rfl
  | cons a t ih =>
    have ha := h a (List.mem_cons_self a t)
    cases hpa : p a
    · rw [List.find?_cons_of_neg t (by simp [hpa]),
        List.find?_cons_of_neg t (by simp [← ha, hpa])]
      exact ih (fun x hx => h x (List.mem_cons_of_mem a hx))
    · rw [List.find?_cons_of_pos t (by simp [hpa]),
        List.find?_cons_of_pos t (by simp [← ha, hpa])]

/-- C2: two `scamper_addrcache_get` calls with the same kind and bytes
return the same instance, the second (a hit) bumping its refcount by
exactly 1; a hit returns the found instance with only its refcount
changed; a miss allocates a fresh instance with refcount 1, back-reference
set, inserted at the head of the kind's tree; `scamper_addr_free`
decrements the refcount by exactly 1 (deallocating at zero); and the
at-most-one-instance-per-bytes invariant is preserved. -/
theorem scamper_addrcache_get_interning (σ σ1 σ2 : CState) (k : AddrType)
    (b : List Nat) (r1 r2 : Nat)
    (h1 : scamper_addrcache_get σ k b = (σ1, r1))
    (h2 : scamper_addrcache_get σ1 k b = (σ2, r2)) :
    (r2 = r1 ∧ refcntOf σ2 r1 = refcntOf σ1 r1 + 1)
    ∧ (∀ id, treeFind σ k b = some id →
        r1 = id ∧ refcntOf σ1 id = refcntOf σ id + 1
        ∧ σ1.trees = σ.trees ∧ (∀ x, ¬ x = id → σ1.heap x = σ.heap x))
    ∧ (treeFind σ k b = none →
        (HeapFresh σ → σ.heap r1 = none)
        ∧ σ1.heap r1 = some ⟨k, b, 1, true⟩
        ∧ σ1.trees k = r1 :: σ.trees k)
    ∧ (∀ id o, σ.heap id = some o → 2 ≤ o.refcnt →
        (scamper_addr_free σ (some id)).heap id =
          some { o with refcnt := o.refcnt - 1 })
    ∧ (∀ id o, σ.heap id = some o → o.refcnt = 1 →
        (scamper_addr_free σ (some id)).heap id = none)
    ∧ (CacheWF σ → CacheWF σ1) := by
  have free_dec : ∀ id o, σ.heap id = some o → 2 ≤ o.refcnt →
      (scamper_addr_free σ (some id)).heap id =
        some { o with refcnt := o.refcnt - 1 } := by
    intro id o ho hr
    simp only [scamper_addr_free, ho]
    rw [if_pos (show 0 < o.refcnt - 1 by omega)]
    simp
  have free_zero : ∀ id o, σ.heap id = some o → o.refcnt = 1 →
      (scamper_addr_free σ (some id)).heap id = none := by
    intro id o ho hr
    simp only [scamper_addr_free, ho]
    rw [if_neg (by omega)]
    simp
  rcases hf : treeFind σ k b with _ | id
  · -- miss on the first call
    simp only [scamper_addrcache_get, hf] at h1
    rw [Prod.mk.injEq] at h1
    obtain ⟨hs1, hr1⟩ := h1
    subst hr1
    have hh1 : σ1.heap σ.next = some ⟨k, b, 1, true⟩ := by
      rw [← hs1]
      simp
    have hhx : ∀ x, ¬ x = σ.next → σ1.heap x = σ.heap x := by
      intro x hx
      rw [← hs1]
      simp [hx]
    have ht1 : σ1.trees k = σ.next :: σ.trees k := by
      rw [← hs1]
      simp
    have htx : ∀ t, ¬ t = k → σ1.trees t = σ.trees t := by
      intro t ht
      rw [← hs1]
      simp [ht]
    have hn1 : σ1.next = σ.next + 1 := by rw [← hs1]
    have hfind1 : treeFind σ1 k b = some σ.next := by
      unfold treeFind
      rw [ht1]
      rw [List.find?_cons_of_pos _ (by simp [hh1, handlers_cmp_self])]
    simp only [scamper_addrcache_get, hfind1] at h2
    rw [Prod.mk.injEq] at h2
    obtain ⟨hs2, hr2⟩ := h2
    subst hr2
    have hh2 : σ2.heap σ.next = some ⟨k, b, 2, true⟩ := by
      rw [← hs2]
      simp [hh1]
    unfold treeFind at hf
    refine ⟨⟨rfl, ?_⟩, ?_, fun _ => ⟨fun hfr => ?_, hh1, ht1⟩, free_dec, free_zero, ?_⟩
    · simp [refcntOf, hh1, hh2]
    · intro id' hid'
      exact absurd hid' (by simp)
    · cases hh : σ.heap σ.next with
      | none => rfl
      | some o => exact absurd (hfr σ.next (by simp [hh])) (by omega)
    · rintro ⟨hfr, hlive, huniq⟩
      have hofold : ∀ t x, x ∈ σ.trees t → x < σ.next :=
        fun t x hx => hfr x (hlive t x hx)
      have htree_mem : ∀ t x, x ∈ σ1.trees t → x = σ.next ∨ x ∈ σ.trees t := by
        intro t x hx
        by_cases htk : t = k
        · subst htk
          rw [ht1] at hx
          exact List.mem_cons.mp hx
        · rw [htx t htk] at hx
          exact Or.inr hx
      refine ⟨?_, ?_, ?_⟩
      · intro x hx
        rw [hn1]
        by_cases hxn : x = σ.next
        · omega
        · rw [hhx x hxn] at hx
          have := hfr x hx
          omega
      · intro t x hx
        rcases htree_mem t x hx with rfl | hx'
        · simp [hh1]
        · have hlt := hofold t x hx'
          rw [hhx x (by omega)]
          exact hlive t x hx'
      · intro t i j oi oj hi hj hoi hoj haddr
        rcases htree_mem t i hi with rfl | hi' <;> rcases htree_mem t j hj with rfl | hj'
        · rfl
        · exfalso
          have hjlt := hofold t j hj'
          rw [hhx j (by omega)] at hoj
          have hoieq : oi = ⟨k, b, 1, true⟩ := by
            rw [hh1] at hoi
            exact ((Option.some.injEq _ _).mp hoi).symm
          -- the new element only shares tree k; j is in tree t with i = σ.next,
          -- so t = k, else σ.next would be an old live identity
          by_cases htk : t = k
          · subst htk
            have hpred := List.find?_eq_none.mp hf j hj'
            apply hpred
            rw [hoj]
            have haj : oj.addr = b := by rw [← haddr, hoieq]
            simp [haj, handlers_cmp_self]
          · have := hofold t σ.next (by rw [htx t htk] at hi; exact hi)
            omega
        · exfalso
          have hilt := hofold t i hi'
          rw [hhx i (by omega)] at hoi
          have hojeq : oj = ⟨k, b, 1, true⟩ := by
            rw [hh1] at hoj
            exact ((Option.some.injEq _ _).mp hoj).symm
          by_cases htk : t = k
          · subst htk
            have hpred := List.find?_eq_none.mp hf i hi'
            apply hpred
            rw [hoi]
            have hai : oi.addr = b := by rw [haddr, hojeq]
            simp [hai, handlers_cmp_self]
          · have := hofold t σ.next (by rw [htx t htk] at hj; exact hj)
            omega
        · have hilt := hofold t i hi'
          have hjlt := hofold t j hj'
          rw [hhx i (by omega)] at hoi
          rw [hhx j (by omega)] at hoj
          exact huniq t i j oi oj hi' hj' hoi hoj haddr
  · -- hit on the first call
    have hfu : (σ.trees k).find? (fun x =>
        match σ.heap x with
        | some o => decide (handlers_cmp k o.addr b = 0)
        | none => false) = some id := hf
    have hpred := List.find?_some hfu
    obtain ⟨o, ho, hcmp⟩ : ∃ o, σ.heap id = some o ∧ handlers_cmp k o.addr b = 0 := by
      revert hpred
      cases hh : σ.heap id with
      | none => intro hp; simp at hp
      | some o => intro hp; exact ⟨o, rfl, by simpa using hp⟩
    simp only [scamper_addrcache_get, hf] at h1
    rw [Prod.mk.injEq] at h1
    obtain ⟨hs1, hr1⟩ := h1
    subst hr1
    have hh1 : σ1.heap id = some { o with refcnt := o.refcnt + 1 } := by
      rw [← hs1]
      simp [ho]
    have hhx : ∀ x, ¬ x = id → σ1.heap x = σ.heap x := by
      intro x hx
      rw [← hs1]
      simp [hx]
    have ht1 : σ1.trees = σ.trees := by rw [← hs1]
    have hn1 : σ1.next = σ.next := by rw [← hs1]
    have hfind1 : treeFind σ1 k b = some id := by
      unfold treeFind
      rw [show σ1.trees k = σ.trees k by rw [ht1]]
      rw [find_congr _ (fun x =>
        match σ.heap x with
        | some o => decide (handlers_cmp k o.addr b = 0)
        | none => false) _ ?_]
      · exact hfu
      · intro x hx
        by_cases hxid : x = id
        · subst hxid
          simp [hh1, ho]
        · simp [hhx x hxid]
    simp only [scamper_addrcache_get, hfind1] at h2
    rw [Prod.mk.injEq] at h2
    obtain ⟨hs2, hr2⟩ := h2
    subst hr2
    have hh2 : σ2.heap id = some { o with refcnt := o.refcnt + 1 + 1 } := by
      rw [← hs2]
      simp [hh1]
    have transfer : ∀ x ox, σ1.heap x = some ox →
        ∃ ox', σ.heap x = some ox' ∧ ox'.addr = ox.addr := by
      intro x ox hox
      by_cases hxid : x = id
      · subst hxid
        rw [hh1] at hox
        exact ⟨o, ho, by rw [← (Option.some.injEq _ _).mp hox]⟩
      · rw [hhx x hxid] at hox
        exact ⟨ox, hox, rfl⟩
    refine ⟨⟨rfl, ?_⟩, fun id' hid' => ?_, fun h0 => ?_, free_dec, free_zero, ?_⟩
    · simp [refcntOf, hh1, hh2]
    · obtain rfl : id = id' := (Option.some.injEq _ _).mp hid'
      exact ⟨rfl, by simp [refcntOf, hh1, ho], ht1, hhx⟩
    · exact absurd h0 (by simp)
    · rintro ⟨hfr, hlive, huniq⟩
      refine ⟨?_, ?_, ?_⟩
      · intro x hx
        rw [hn1]
        by_cases hxid : x = id
        · subst hxid
          exact hfr x (by simp [ho])
        · rw [hhx x hxid] at hx
          exact hfr x hx
      · intro t x hx
        rw [show σ1.trees t = σ.trees t by rw [ht1]] at hx
        by_cases hxid : x = id
        · subst hxid
          simp [hh1]
        · rw [hhx x hxid]
          exact hlive t x hx
      · intro t i j oi oj hi hj hoi hoj haddr
        rw [show σ1.trees t = σ.trees t by rw [ht1]] at hi hj
        obtain ⟨oi', hoi', hai⟩ := transfer i oi hoi
        obtain ⟨oj', hoj', haj⟩ := transfer j oj hoj
        exact huniq t i j oi' oj' hi hj hoi' hoj' (by rw [hai, haj, haddr])

/-- One interned IPv4 address (10.0.0.1, refcount 1). -/
def witnessCache1 : CState :=
  (scamper_addrcache_get emptyCache .ipv4 [10, 0, 0, 1]).1

/-- The same address interned twice (refcount 2). -/
def witnessCache2 : CState :=
  (scamper_addrcache_get witnessCache1 .ipv4 [10, 0, 0, 1]).1

/-- The same address interned three times (refcount 3). -/
def witnessCache3 : CState :=
  (scamper_addrcache_get witnessCache2 .ipv4 [10, 0, 0, 1]).1

/-- Witness for C2 on concrete cache states. -/
theorem scamper_addrcache_get_interning_witness :
    ((scamper_addrcache_get witnessCache1 .ipv4 [10, 0, 0, 1]).2 =
        (scamper_addrcache_get emptyCache .ipv4 [10, 0, 0, 1]).2)
    ∧ refcntOf witnessCache2 (scamper_addrcache_get emptyCache .ipv4 [10, 0, 0, 1]).2 =
        refcntOf witnessCache1 (scamper_addrcache_get emptyCache .ipv4 [10, 0, 0, 1]).2 + 1
    ∧ emptyCache.heap (scamper_addrcache_get emptyCache .ipv4 [10, 0, 0, 1]).2 = none
    ∧ witnessCache1.heap (scamper_addrcache_get emptyCache .ipv4 [10, 0, 0, 1]).2 =
        some ⟨.ipv4, [10, 0, 0, 1], 1, true⟩
    ∧ treeFind witnessCache1 .ipv4 [10, 0, 0, 1] = some 0
    ∧ refcntOf witnessCache2 0 = refcntOf witnessCache1 0 + 1
    ∧ (scamper_addr_free witnessCache1 (some 0)).heap 0 = none
    ∧ (scamper_addr_free witnessCache2 (some 0)).heap 0 =
        some ⟨.ipv4, [10, 0, 0, 1], 1, true⟩
    ∧ CacheWF witnessCache1 := by
  have wf0 : CacheWF emptyCache := by
    refine ⟨fun id h => absurd rfl h, fun k id h => ?_, fun k i j oi oj hi _ _ _ _ => ?_⟩
    · simp [emptyCache] at h
    · simp [emptyCache] at hi
  have T := scamper_addrcache_get_interning emptyCache witnessCache1 witnessCache2
    .ipv4 [10, 0, 0, 1] (scamper_addrcache_get emptyCache .ipv4 [10, 0, 0, 1]).2
    (scamper_addrcache_get witnessCache1 .ipv4 [10, 0, 0, 1]).2 rfl rfl
  have T2 := scamper_addrcache_get_interning witnessCache1 witnessCache2 witnessCache3
    .ipv4 [10, 0, 0, 1] (scamper_addrcache_get witnessCache1 .ipv4 [10, 0, 0, 1]).2
    (scamper_addrcache_get witnessCache2 .ipv4 [10, 0, 0, 1]).2 rfl rfl
  have T3 := scamper_addrcache_get_interning witnessCache2 witnessCache3
    (scamper_addrcache_get witnessCache3 .ipv4 [10, 0, 0, 1]).1 .ipv4 [10, 0, 0, 1]
    (scamper_addrcache_get witnessCache2 .ipv4 [10, 0, 0, 1]).2
    (scamper_addrcache_get witnessCache3 .ipv4 [10, 0, 0, 1]).2 rfl rfl
  exact ⟨T.1.1, T.1.2, (T.2.2.1 rfl).1 wf0.1, (T.2.2.1 rfl).2.1, by decide,
    (T2.2.1 0 (by decide)).2.1,
    T2.2.2.2.2.1 0 ⟨.ipv4, [10, 0, 0, 1], 1, true⟩ (by decide) rfl,
    T3.2.2.2.1 0 ⟨.ipv4, [10, 0, 0, 1], 2, true⟩ (by decide) (by decide),
    T.2.2.2.2.2 wf0⟩

/-- Witness for C3 on the one-entry cache state. -/
theorem scamper_addrcache_free_detach_witness :
    0 ∈ witnessCache1.trees .ipv4
    ∧ witnessCache1.heap 0 = some ⟨.ipv4, [10, 0, 0, 1], 1, true⟩
    ∧ (scamper_addrcache_free witnessCache1).heap 0 =
        some ⟨.ipv4, [10, 0, 0, 1], 1, false⟩
    ∧ (scamper_addr_free (scamper_addrcache_free witnessCache1) (some 0)).heap 0 = none
    ∧ (scamper_addr_free (scamper_addrcache_free witnessCache1) (some 0)).trees =
        (scamper_addrcache_free witnessCache1).trees :=
  ⟨by decide, by decide,
   (scamper_addrcache_free_detach witnessCache1).1 .ipv4 0
      ⟨.ipv4, [10, 0, 0, 1], 1, true⟩ (by decide) (by decide),
   ((scamper_addrcache_free_detach witnessCache1).2.2.2.2 .ipv4 0
      ⟨.ipv4, [10, 0, 0, 1], 1, true⟩ (by decide) (by decide) rfl).1,
   ((scamper_addrcache_free_detach witnessCache1).2.2.2.2 .ipv4 0
      ⟨.ipv4, [10, 0, 0, 1], 1, true⟩ (by decide) (by decide) rfl).2.2⟩
